import Mathlib

/-!
Verification development for the `shai` coding-assistant repository.

The Lean definitions below are a shallow embedding of the Rust sources:
pure Rust functions become Lean functions, the stateful file-system tools
become explicit state passing over a `World` record, and external effects
(process execution, the regex engine, the HTTP layer) are parameters of the
embedded functions.  Rust string primitives (`contains`, `replace`,
`replacen`, `matches().count()`, `trim`) are re-implemented over `List Char`
with Rust's documented semantics, using structural recursion (with an
explicit fuel bound where Rust iterates over shrinking suffixes) so that all
definitions compute by `decide` / `rfl`.
-/

namespace Shai

/-! ## Rust string primitives -/

/-- Splits `s` around the first occurrence of `pat` (Rust `str::find`):
returns `(before, after)` where `after` starts right after the match. -/
def splitFirst (pat : List Char) : List Char → Option (List Char × List Char)
  | [] => if pat.isEmpty then some ([], []) else none
  | c :: rest =>
    if pat.isPrefixOf (c :: rest) then some ([], (c :: rest).drop pat.length)
    else
      match splitFirst pat rest with
      | some (pre, post) => some (c :: pre, post)
      | none => none

/-- Rust `str::contains` on character lists. -/
def containsSub (s pat : List Char) : Bool :=
  (splitFirst pat s).isSome

/-- Rust `str::contains` on `String`. -/
def strContains (s pat : String) : Bool :=
  containsSub s.data pat.data

/-- Fueled scan counting non-overlapping matches of `pat`
(Rust `str::matches(pat).count()`); an empty pattern matches at every
character boundary.  Fuel `s.length + 1` is always sufficient. -/
def scanCount (pat : List Char) : Nat → List Char → Nat
  | _, [] => if pat.isEmpty then 1 else 0
  | 0, _ => 0
  | fuel + 1, c :: rest =>
    if pat.isPrefixOf (c :: rest) then
      if pat.isEmpty then 1 + scanCount pat fuel rest
      else 1 + scanCount pat fuel ((c :: rest).drop pat.length)
    else scanCount pat fuel rest

/-- Rust `s.matches(pat).count()`. -/
def rustCountMatches (s pat : String) : Nat :=
  scanCount pat.data (s.data.length + 1) s.data

/-- Fueled left-to-right replacement of at most `n` non-overlapping
occurrences of `pat` by `new` (Rust `str::replacen`). -/
def scanReplN (pat new : List Char) : Nat → Nat → List Char → List Char
  | _, 0, s => s
  | 0, _, s => s
  | _ + 1, _ + 1, [] => if pat.isEmpty then new else []
  | fuel + 1, n + 1, c :: rest =>
    if pat.isPrefixOf (c :: rest) then
      if pat.isEmpty then new ++ c :: scanReplN pat new fuel n rest
      else new ++ scanReplN pat new fuel n ((c :: rest).drop pat.length)
    else c :: scanReplN pat new fuel (n + 1) rest

/-- Fueled replacement of every non-overlapping occurrence of `pat` by `new`
(Rust `str::replace`). -/
def scanReplAll (pat new : List Char) : Nat → List Char → List Char
  | 0, s => s
  | _ + 1, [] => if pat.isEmpty then new else []
  | fuel + 1, c :: rest =>
    if pat.isPrefixOf (c :: rest) then
      if pat.isEmpty then new ++ c :: scanReplAll pat new fuel rest
      else new ++ scanReplAll pat new fuel ((c :: rest).drop pat.length)
    else c :: scanReplAll pat new fuel rest

/-- Rust `s.replace(pat, new)`. -/
def rustReplace (s pat new : String) : String :=
  ⟨scanReplAll pat.data new.data (s.data.length + 1) s.data⟩

/-- Rust `s.replacen(pat, new, 1)`. -/
def rustReplaceFirst (s pat new : String) : String :=
  ⟨scanReplN pat.data new.data (s.data.length + 1) 1 s.data⟩

/-- Removes leading whitespace (half of Rust `str::trim`). -/
def dropLeadWs : List Char → List Char
  | [] => []
  | c :: rest => if c.isWhitespace then dropLeadWs rest else c :: rest

/-- Rust `str::trim` on character lists. -/
def trimWs (s : List Char) : List Char :=
  dropLeadWs ((dropLeadWs s.reverse).reverse)

/-- Rust `str::trim` on `String`. -/
def rustTrim (s : String) : String :=
  ⟨trimWs s.data⟩

/-- Removes trailing whitespace (Rust `str::trim_end`). -/
def rustTrimEnd (s : String) : String :=
  ⟨(dropLeadWs s.data.reverse).reverse⟩

/-- The apostrophe character, used by several error messages of the tools. -/
def sq : String := String.singleton (Char.ofNat 39)

/-- Rust `format!("\x7b:4\x7d", n)`: decimal rendering left-padded with
spaces to width 4. -/
def padLeft4 (n : Nat) : String :=
  let s := toString n
  ⟨List.replicate (4 - s.data.length) ' ' ++ s.data⟩

/-- ASCII lowercasing of one character (the relevant fragment of Rust
`str::to_lowercase`, which only differs on non-ASCII letters). -/
def charLowerAscii (c : Char) : Char :=
  if c.toNat ≥ 65 ∧ c.toNat ≤ 90 then Char.ofNat (c.toNat + 32) else c

/-- ASCII lowercasing of a string. -/
def lowerAscii (s : String) : String :=
  ⟨s.data.map charLowerAscii⟩

/-! ## JSON values (`serde_json::Value`)

Objects are modeled as association lists; `serde_json`'s map has unique
keys, so lookups take the first binding and `insert` of a fresh key is
modeled as appending the new binding (key order inside an object is not
observable by any of the embedded operations).  Numbers are modeled as
integers: none of the verified code paths inspects a non-integral number. -/

inductive Json where
  | null : Json
  | bool : Bool → Json
  | num : Int → Json
  | str : String → Json
  | arr : List Json → Json
  | obj : List (String × Json) → Json

/-- First binding of `key` in an object's field list (`Map::get`). -/
def findVal : List (String × Json) → String → Option Json
  | [], _ => none
  | (k, v) :: rest, key => if k = key then some v else findVal rest key

/-- Replaces the first binding of `key` (the effect of writing through
`Map::get_mut`). -/
def updFirst : List (String × Json) → String → Json → List (String × Json)
  | [], _, _ => []
  | (k, v) :: rest, key, nv =>
    if k = key then (k, nv) :: rest else (k, v) :: updFirst rest key nv

/-- `Value::get` on an arbitrary JSON value: `none` unless the value is an
object containing the key. -/
def getField (j : Json) (key : String) : Option Json :=
  match j with
  | .obj fs => findVal fs key
  | _ => none

/-- Hexadecimal digit (lower case), for JSON control-character escapes. -/
def hexDigit (n : Nat) : Char :=
  if n < 10 then Char.ofNat (48 + n) else Char.ofNat (87 + n)

/-- Four-digit lower-case hexadecimal rendering. -/
def hex4 (n : Nat) : String :=
  ⟨[hexDigit (n / 4096 % 16), hexDigit (n / 256 % 16),
    hexDigit (n / 16 % 16), hexDigit (n % 16)]⟩

/-- JSON string escaping as performed by `serde_json` when serializing. -/
def escapeJsonChar (c : Char) : List Char :=
  if c = Char.ofNat 34 then [Char.ofNat 92, Char.ofNat 34]
  else if c = Char.ofNat 92 then [Char.ofNat 92, Char.ofNat 92]
  else if c = Char.ofNat 10 then [Char.ofNat 92, 'n']
  else if c = Char.ofNat 13 then [Char.ofNat 92, 'r']
  else if c = Char.ofNat 9 then [Char.ofNat 92, 't']
  else if c = Char.ofNat 8 then [Char.ofNat 92, 'b']
  else if c = Char.ofNat 12 then [Char.ofNat 92, 'f']
  else if c.toNat < 32 then (Char.ofNat 92) :: 'u' :: (hex4 c.toNat).data
  else [c]

/-- Escapes a whole string for JSON serialization. -/
def escapeJson (s : String) : String :=
  ⟨s.data.flatMap escapeJsonChar⟩

mutual

/-- Compact serialization of a JSON value (`serde_json::Value::to_string`). -/
def jsonToString : Json → String
  | .null => "null"
  | .bool true => "true"
  | .bool false => "false"
  | .num n => toString n
  | .str s => "\"" ++ escapeJson s ++ "\""
  | .arr xs => "[" ++ jsonArrToString xs ++ "]"
  | .obj fs => "\x7b" ++ jsonObjToString fs ++ "\x7d"

/-- Comma-separated serialization of array elements. -/
def jsonArrToString : List Json → String
  | [] => ""
  | [x] => jsonToString x
  | x :: y :: rest => jsonToString x ++ "," ++ jsonArrToString (y :: rest)

/-- Comma-separated serialization of object entries. -/
def jsonObjToString : List (String × Json) → String
  | [] => ""
  | [(k, v)] => "\"" ++ escapeJson k ++ "\":" ++ jsonToString v
  | (k, v) :: e :: rest =>
    "\"" ++ escapeJson k ++ "\":" ++ jsonToString v ++ "," ++ jsonObjToString (e :: rest)

end

/-! ## Line diff (`EditTool::myers_diff`)

`EditTool::myers_diff` runs the `similar` crate's `TextDiff::from_lines`
(a Myers-style minimal line diff) and then formats the change list.  The
change-list computation lives in the external `similar` crate, so it is
modeled here by a fueled longest-common-subsequence line diff producing the
same `Delete`/`Insert`/`Equal` tags; the formatting loop below is a direct
translation of the source. -/

inductive ChangeTag where
  | delete : ChangeTag
  | insert : ChangeTag
  | equal : ChangeTag
deriving DecidableEq

/-- Fueled longest-common-subsequence length of two line lists. -/
def lcsLen : Nat → List String → List String → Nat
  | _, [], _ => 0
  | _, _, [] => 0
  | 0, _, _ => 0
  | fuel + 1, a :: as, b :: bs =>
    if a = b then 1 + lcsLen fuel as bs
    else max (lcsLen fuel (a :: as) bs) (lcsLen fuel as (b :: bs))

/-- Fueled LCS-based line diff; matching lines become `equal` changes,
the rest become `delete`/`insert` changes. -/
def diffGo : Nat → List String → List String → List (ChangeTag × String)
  | _, [], [] => []
  | 0, as, bs => as.map (fun a => (ChangeTag.delete, a)) ++ bs.map (fun b => (ChangeTag.insert, b))
  | _ + 1, [], bs => bs.map (fun b => (ChangeTag.insert, b))
  | fuel + 1, a :: as, [] => (ChangeTag.delete, a) :: diffGo fuel as []
  | fuel + 1, a :: as, b :: bs =>
    if a = b then (ChangeTag.equal, a) :: diffGo fuel as bs
    else if lcsLen (fuel + 1) as (b :: bs) ≥ lcsLen (fuel + 1) (a :: as) bs then
      (ChangeTag.delete, a) :: diffGo fuel as (b :: bs)
    else (ChangeTag.insert, b) :: diffGo fuel (a :: as) bs

/-- Splits into lines keeping the terminating newline of each line
(`TextDiff::from_lines` feeds such slices to the change iterator). -/
def linesGo (acc : List Char) : List Char → List (List Char)
  | [] => if acc.isEmpty then [] else [acc.reverse]
  | c :: rest =>
    if c = '\n' then (acc.reverse ++ [c]) :: linesGo [] rest else linesGo (c :: acc) rest

/-- Line decomposition of a string, newline terminators kept. -/
def fromLines (s : String) : List String :=
  (linesGo [] s.data).map (fun l => ⟨l⟩)

/-- The tagged change list of the line diff of two contents. -/
def diffChanges (before after : String) : List (ChangeTag × String) :=
  diffGo ((fromLines before).length + (fromLines after).length + 1)
    (fromLines before) (fromLines after)

/-- The formatting loop of `EditTool::myers_diff`: one rendered row per
change, with the running old/new line counters of the source. -/
def formatChanges : Nat → Nat → List (ChangeTag × String) → List String
  | _, _, [] => []
  | o, n, (tag, v) :: rest =>
    match tag with
    | .equal =>
      ("\x1b[2;37m" ++ padLeft4 o ++ "\x1b[0m   " ++ rustTrimEnd v)
        :: formatChanges (o + 1) (n + 1) rest
    | .delete =>
      ("\x1b[2;37m" ++ padLeft4 o ++ "\x1b[0m " ++ "\x1b[48;5;88;37m" ++ "-" ++ " "
          ++ rustTrimEnd v ++ "\x1b[0m")
        :: formatChanges (o + 1) n rest
    | .insert =>
      ("\x1b[2;37m" ++ padLeft4 n ++ "\x1b[0m " ++ "\x1b[48;5;28;37m" ++ "+" ++ " "
          ++ rustTrimEnd v ++ "\x1b[0m")
        :: formatChanges o (n + 1) rest

/-- `EditTool::myers_diff`: "No changes" when every change is `equal`,
otherwise the newline-joined formatted rows. -/
def myers_diff (before after : String) : String :=
  let changes := diffChanges before after
  if changes.all (fun c => c.1 = ChangeTag.equal) then "No changes"
  else String.intercalate "\n" (formatChanges 1 1 changes)

/-! ## File-system operation log (`FsOperationLog`) -/

inductive FsOperationType where
  | read : FsOperationType
  | write : FsOperationType
  | edit : FsOperationType
  | multiEdit : FsOperationType
deriving DecidableEq

/-- State of `FsOperationLog`: the chronological operation list and the set
of paths ever read (timestamps, irrelevant to every verified property, are
omitted from the log entries). -/
structure LogState where
  operations : List (FsOperationType × String)
  readFiles : List String
deriving DecidableEq

/-- `FsOperationLog::new`. -/
def LogState.initial : LogState := ⟨[], []⟩

/-- `HashSet::insert` modeled on a duplicate-free list. -/
def insertPath (paths : List String) (p : String) : List String :=
  if paths.contains p then paths else paths ++ [p]

/-- `FsOperationLog::log_operation`: appends the entry and, for a read,
records the path in the read-set. -/
def log_operation (st : LogState) (t : FsOperationType) (p : String) : LogState :=
  { operations := st.operations ++ [(t, p)]
    readFiles := if t = FsOperationType.read then insertPath st.readFiles p else st.readFiles }

/-- `FsOperationLog::has_been_read`. -/
def has_been_read (st : LogState) (p : String) : Bool :=
  st.readFiles.contains p

/-- `FsOperationLog::validate_edit_permission`. -/
def validate_edit_permission (st : LogState) (p : String) : Except String Unit :=
  if has_been_read st p then Except.ok ()
  else Except.error ("Cannot edit file " ++ sq ++ p ++ sq
    ++ ": The file must be read first using the Read tool before it can be edited.")

/-! ## Tool results and file-system world

`ToolResult` is `Success \x7b output, metadata \x7d | Error \x7b error,
metadata \x7d`; the metadata map (sizes, counters, echoes of the
parameters) is not inspected by any verified property and is omitted.  The
`World` record carries the in-memory model of the disk, the shared
operation log, and — as a pure observation channel — the chronological list
of `fs::write` commits performed so far. -/

inductive ToolResult where
  | success : String → ToolResult
  | error : String → ToolResult
deriving DecidableEq

/-- Whether a result is the `Error` variant. -/
def ToolResult.isError : ToolResult → Bool
  | .success _ => false
  | .error _ => true

structure World where
  files : List (String × String)
  log : LogState
  writes : List (String × String)
deriving DecidableEq

/-- Content of a file on the modeled disk (`fs::read_to_string`, with
`Path::exists` being `isSome`). -/
def fileContent : List (String × String) → String → Option String
  | [], _ => none
  | (k, v) :: rest, p => if k = p then some v else fileContent rest p

/-- Overwrites (or creates) a file on the modeled disk. -/
def setFile : List (String × String) → String → String → List (String × String)
  | [], p, c => [(p, c)]
  | (k, v) :: rest, p, c =>
    if k = p then (k, c) :: rest else (k, v) :: setFile rest p c

/-- `EditTool::commit_edit` (`fs::write`): updates the disk and records the
commit in the write trace. -/
def commit_edit (st : World) (p c : String) : World :=
  { st with files := setFile st.files p c, writes := st.writes ++ [(p, c)] }

/-! ## Edit tool (`EditTool`) -/

structure EditToolParams where
  path : String
  old_string : String
  new_string : String
  replace_all : Bool
deriving DecidableEq

/-- `EditTool::perform_edit_on_content`: fails when `old_string` does not
occur; otherwise replaces all or the first occurrence and reports the
replacement count. -/
def perform_edit_on_content (content old_string new_string : String)
    (replaceAll : Bool) : Except String (String × Nat) :=
  if ¬ strContains content old_string then
    Except.error ("Pattern " ++ sq ++ old_string ++ sq ++ " not found in content")
  else if replaceAll then
    Except.ok (rustReplace content old_string new_string, rustCountMatches content old_string)
  else
    Except.ok (rustReplaceFirst content old_string new_string, 1)

/-- `EditTool::perform_edit`: existence check, in-memory transformation,
diff rendering, and — only when not previewing — the single disk commit. -/
def perform_edit (st : World) (p : EditToolParams) (preview : Bool) :
    Except String (String × Nat) × World :=
  match fileContent st.files p.path with
  | none => (Except.error ("File does not exist: " ++ p.path), st)
  | some content =>
    match perform_edit_on_content content p.old_string p.new_string p.replace_all with
    | Except.error e => (Except.error e, st)
    | Except.ok (newContent, replacements) =>
      let msg := "\n" ++ myers_diff content newContent
      if preview then (Except.ok (msg, replacements), st)
      else (Except.ok (msg, replacements), commit_edit st p.path newContent)

/-- `EditTool::execute_internal`: parameter validation, read-before-edit
validation, the edit itself, and the log append on a committed success. -/
def EditTool.execute_internal (st : World) (p : EditToolParams) (preview : Bool) :
    ToolResult × World :=
  if p.old_string = p.new_string then
    (ToolResult.error "old_string and new_string cannot be the same", st)
  else
    match validate_edit_permission st.log p.path with
    | Except.error e => (ToolResult.error e, st)
    | Except.ok _ =>
      match perform_edit st p preview with
      | (Except.ok (msg, _), st') =>
        let st'' := if preview then st'
          else { st' with log := log_operation st'.log FsOperationType.edit p.path }
        (ToolResult.success msg, st'')
      | (Except.error e, st') =>
        (ToolResult.error ("Edit " ++ (if preview then "preview" else "") ++ " failed: " ++ e), st')

/-! ## Multi-edit tool (`MultiEditTool`) -/

structure EditOperation where
  old_string : String
  new_string : String
  replace_all : Bool
deriving DecidableEq

structure MultiEditToolParams where
  file_path : String
  edits : List EditOperation
deriving DecidableEq

/-- The sequential in-memory application loop of
`MultiEditTool::perform_multi_edit`; `idx` is the 0-based index of the next
edit, used in the per-edit error message. -/
def apply_edits (content : String) (idx : Nat) :
    List EditOperation → Except String (String × List Nat)
  | [] => Except.ok (content, [])
  | e :: rest =>
    match perform_edit_on_content content e.old_string e.new_string e.replace_all with
    | Except.ok (c', n) =>
      (apply_edits c' (idx + 1) rest).map (fun r => (r.1, n :: r.2))
    | Except.error err =>
      Except.error ("Edit #" ++ toString (idx + 1) ++ ": " ++ err)

/-- `MultiEditTool::perform_multi_edit`: existence check, sequential
in-memory application, combined diff, and the single commit when not
previewing. -/
def perform_multi_edit (st : World) (p : MultiEditToolParams) (preview : Bool) :
    Except String (String × List Nat) × World :=
  match fileContent st.files p.file_path with
  | none => (Except.error ("File does not exist: " ++ p.file_path), st)
  | some content =>
    match apply_edits content 0 p.edits with
    | Except.error e => (Except.error e, st)
    | Except.ok (finalContent, counts) =>
      let diff := myers_diff content finalContent
      if preview then (Except.ok (diff, counts), st)
      else (Except.ok (diff, counts), commit_edit st p.file_path finalContent)

/-- `MultiEditTool::execute_internal`. -/
def MultiEditTool.execute_internal (st : World) (p : MultiEditToolParams) (preview : Bool) :
    ToolResult × World :=
  if p.edits.isEmpty then
    (ToolResult.error "At least one edit operation is required", st)
  else
    match validate_edit_permission st.log p.file_path with
    | Except.error e => (ToolResult.error e, st)
    | Except.ok _ =>
      match perform_multi_edit st p preview with
      | (Except.ok (msg, _), st') =>
        let st'' := if preview then st'
          else { st' with log := log_operation st'.log FsOperationType.multiEdit p.file_path }
        (ToolResult.success msg, st'')
      | (Except.error e, st') =>
        (ToolResult.error ("MultiEdit " ++ (if preview then "preview" else "") ++ " failed: " ++ e),
          st')

/-! ## Read and write tools, and operation sequences

`ReadTool::execute` checks existence, reads the file, and logs a `Read`
operation only on success (the line-range selection and line-number
formatting of `read_file_content` only shape the output text and are
omitted: the whole content is returned).  `WriteTool::execute` overwrites
the file and logs a `Write` operation; it never marks the path as read. -/

/-- `ReadTool::execute` (whole-file read). -/
def ReadTool.execute (st : World) (path : String) : ToolResult × World :=
  match fileContent st.files path with
  | none => (ToolResult.error ("File does not exist: " ++ path), st)
  | some content =>
    (ToolResult.success content,
      { st with log := log_operation st.log FsOperationType.read path })

/-- `WriteTool::execute`: commits the content and logs a `Write`. -/
def WriteTool.execute (st : World) (path content : String) : ToolResult × World :=
  let existed := (fileContent st.files path).isSome
  let message := "Successfully " ++ (if existed then "updated" else "created")
    ++ " file " ++ sq ++ path ++ sq ++ " with " ++ toString content.utf8ByteSize ++ " bytes"
  (ToolResult.success (message ++ "\n" ++ content),
    { commit_edit st path content with
        log := log_operation st.log FsOperationType.write path })

/-- One invocation of a file-system tool, for reasoning about operation
sequences. -/
inductive Cmd where
  | readC : String → Cmd
  | writeC : String → String → Cmd
  | editC : EditToolParams → Cmd
  | multiC : MultiEditToolParams → Cmd

/-- Executes one command against the world. -/
def stepCmd (st : World) : Cmd → ToolResult × World
  | .readC p => ReadTool.execute st p
  | .writeC p c => WriteTool.execute st p c
  | .editC p => EditTool.execute_internal st p false
  | .multiC p => MultiEditTool.execute_internal st p false

/-- Runs a command sequence, keeping only the final world. -/
def runCmds (st : World) : List Cmd → World
  | [] => st
  | c :: rest => runCmds (stepCmd st c).2 rest

/-- A world whose disk holds `files` and in which no tool has run yet. -/
def initWorld (files : List (String × String)) : World :=
  ⟨files, LogState.initial, []⟩

/-! ## Chat messages and responses (`openai_dive` resources as used)

Only the parts the verified code inspects are modeled: assistant messages
carry optional content, optional reasoning content and an optional
tool-call list (the unused `refusal`/`name`/`audio` fields are omitted);
tool calls carry their id, function name and argument string; choices carry
their message; requests carry the model name and the message list (the
sampling parameters are never touched by the verified code). -/

inductive MsgContent where
  | text : String → MsgContent
  | parts : List String → MsgContent
deriving DecidableEq

structure ToolCallM where
  id : String
  name : String
  arguments : String
deriving DecidableEq

inductive ChatMessageM where
  | system : String → ChatMessageM
  | user : MsgContent → ChatMessageM
  | assistant : Option MsgContent → Option String → Option (List ToolCallM) → ChatMessageM
  | tool : String → String → ChatMessageM
deriving DecidableEq

structure ChoiceM where
  message : ChatMessageM
deriving DecidableEq

structure ChatCompletionResponseM where
  choices : List ChoiceM
deriving DecidableEq

structure ChatCompletionParametersM where
  model : String
  messages : List ChatMessageM
deriving DecidableEq

/-! ## Think-tag extraction (`ExtractThinkContent::extract_think_content`)

The source applies the regex `(?s)<think>(.*?)</think>` to the assistant
text: `captures` yields the lazily-delimited body of the leftmost span, and
`replace_all` removes every such span, scanning left to right.  Both are
realized directly by substring search: a leftmost-lazy match runs from the
first `<think>` to the first `</think>` after it. -/

def thinkOpenTag : List Char := "<think>".data

def thinkCloseTag : List Char := "</think>".data

/-- Group 1 of the first `(?s)<think>(.*?)</think>` match, if any. -/
def capturesThink (s : List Char) : Option (List Char) :=
  match splitFirst thinkOpenTag s with
  | none => none
  | some (_, rest) =>
    match splitFirst thinkCloseTag rest with
    | none => none
    | some (inner, _) => some inner

/-- Fueled removal of every `<think>…</think>` span, left to right
(`Regex::replace_all` with the empty replacement). -/
def removeThinkGo : Nat → List Char → List Char
  | 0, s => s
  | fuel + 1, s =>
    match splitFirst thinkOpenTag s with
    | none => s
    | some (pre, rest) =>
      match splitFirst thinkCloseTag rest with
      | none => s
      | some (_, post) => pre ++ removeThinkGo fuel post

/-- Removal of all think spans; each removal consumes at least one
character of the scanned suffix, so `s.length` fuel always suffices. -/
def removeThinkAll (s : List Char) : List Char :=
  removeThinkGo s.length s

/-- The per-message body of `extract_think_content`: on an assistant text
containing a think span, moves the trimmed captured body to
`reasoning_content` and strips all spans from the content, nulling it when
the stripped text is empty. -/
def extract_think_message (m : ChatMessageM) : ChatMessageM :=
  match m with
  | .assistant (some (.text t)) _ calls =>
    match capturesThink t.data with
    | some inner =>
      let cleaned : String := ⟨trimWs (removeThinkAll t.data)⟩
      ChatMessageM.assistant
        (if cleaned = "" then none else some (MsgContent.text cleaned))
        (some ⟨trimWs inner⟩) calls
    | none => m
  | m => m

/-- `ExtractThinkContent::extract_think_content` over a whole response. -/
def extract_think_content (r : ChatCompletionResponseM) : ChatCompletionResponseM :=
  ⟨r.choices.map (fun c => ⟨extract_think_message c.message⟩)⟩

/-! ## Mistral role-alternation repair (`FixMistralAlternating`) -/

/-- The assistant placeholder inserted before a misplaced user message. -/
def placeholderAssistantMsg : ChatMessageM :=
  ChatMessageM.assistant (some (MsgContent.text "I understand.")) none none

/-- The user placeholder inserted before a misplaced assistant message. -/
def placeholderUserMsg : ChatMessageM :=
  ChatMessageM.user (MsgContent.text "Go ahead.")

/-- `tool_calls.as_ref().map_or(true, |calls| calls.is_empty())`. -/
def noToolCalls : Option (List ToolCallM) → Bool
  | none => true
  | some calls => calls.isEmpty

/-- The in-place insertion loop of `fix_mistral_alternating`, rephrased
functionally: after an insertion the source's index advance re-examines the
original message with the already-incremented position counter, which is
exactly the `pos + 2` continuation below. -/
def fixAltGo : Nat → List ChatMessageM → List ChatMessageM
  | _, [] => []
  | pos, ChatMessageM.user c :: rest =>
    if pos % 2 ≠ 0 then
      placeholderAssistantMsg :: ChatMessageM.user c :: fixAltGo (pos + 2) rest
    else ChatMessageM.user c :: fixAltGo (pos + 1) rest
  | pos, ChatMessageM.assistant c r calls :: rest =>
    if noToolCalls calls then
      if pos % 2 = 0 then
        placeholderUserMsg :: ChatMessageM.assistant c r calls :: fixAltGo (pos + 2) rest
      else ChatMessageM.assistant c r calls :: fixAltGo (pos + 1) rest
    else ChatMessageM.assistant c r calls :: fixAltGo pos rest
  | pos, m :: rest => m :: fixAltGo pos rest

/-- `FixMistralAlternating::fix_mistral_alternating`: gated on the model
name containing "mistral" (case-insensitively), then the insertion loop. -/
def fix_mistral_alternating (p : ChatCompletionParametersM) : ChatCompletionParametersM :=
  if ¬ strContains (lowerAscii p.model) "mistral" then p
  else { p with messages := fixAltGo 0 p.messages }

/-- `LlmClient::chat`: the alternation repair runs before every provider
call, and think-tag extraction runs on every successful provider response;
the provider itself is a parameter. -/
def LlmClient.chat
    (providerChat : ChatCompletionParametersM → Except String ChatCompletionResponseM)
    (req : ChatCompletionParametersM) : Except String ChatCompletionResponseM :=
  (providerChat (fix_mistral_alternating req)).map extract_think_content

/-! ## Forced function calling (`chat_with_tools_fc_required`)

The response post-processing of the required-function-calling strategy:
`response.choices[0]` aborts on an empty choice list, which the embedding
renders as `none`. -/

/-- Strips a sole `no_op` tool call from the first choice's assistant
message; every other message is returned unchanged. -/
def strip_no_op (r : ChatCompletionResponseM) : Option ChatCompletionResponseM :=
  match r.choices with
  | [] => none
  | c :: rest =>
    let m' := match c.message with
      | ChatMessageM.assistant content reasoning (some [tc]) =>
        if tc.name = "no_op" then ChatMessageM.assistant content reasoning none
        else c.message
      | m => m
    some ⟨⟨m'⟩ :: rest⟩

/-! ## Mistral JSON hooks (`MistralHooks`) -/

/-- `tool_choice == "required"`: `serde_json::Value` compared with a string
slice is true exactly for the string value "required". -/
def isStrRequired : Json → Bool
  | .str s => s = "required"
  | _ => false

/-- `MistralHooks::before_send`: rewrites a `tool_choice` equal to
"required" into "any"; everything else passes through. -/
def mistral_before_send (j : Json) : Json :=
  match j with
  | .obj fs =>
    match findVal fs "tool_choice" with
    | some v =>
      if isStrRequired v then Json.obj (updFirst fs "tool_choice" (Json.str "any")) else j
    | none => j
  | _ => j

/-- The per-tool-call body of `MistralHooks::after_receive`: inserts
`"type":"function"` when the field is missing; a missing field on a
non-object hits the source's `as_object_mut().unwrap()`, rendered `none`. -/
def fix_tool_call (tc : Json) : Option Json :=
  match getField tc "type" with
  | some _ => some tc
  | none =>
    match tc with
    | .obj gs => some (Json.obj (gs ++ [("type", Json.str "function")]))
    | _ => none

/-- Effectful elementwise traversal in the `Option` monad (the shape of the
source's `for` loops whose body may hit the rendered-as-`none` unwrap). -/
def traverseOpt (f : α → Option β) : List α → Option (List β)
  | [] => some []
  | x :: xs =>
    match f x with
    | none => none
    | some y => (traverseOpt f xs).map (fun ys => y :: ys)

/-- Rewrites the `tool_calls` array of one message, when present. -/
def fix_message (m : Json) : Option Json :=
  match m with
  | .obj gs =>
    match findVal gs "tool_calls" with
    | some (.arr tcs) =>
      (traverseOpt fix_tool_call tcs).map
        (fun tcs' => Json.obj (updFirst gs "tool_calls" (Json.arr tcs')))
    | _ => some m
  | _ => some m

/-- Rewrites the `message` of one choice, when present. -/
def fix_choice (c : Json) : Option Json :=
  match c with
  | .obj gs =>
    match findVal gs "message" with
    | some m => (fix_message m).map (fun m' => Json.obj (updFirst gs "message" m'))
    | none => some c
  | _ => some c

/-- `MistralHooks::after_receive`: walks `choices[*].message.tool_calls[*]`
and repairs each tool call; a JSON without a choices array passes
through. -/
def mistral_after_receive (j : Json) : Option Json :=
  match j with
  | .obj fs =>
    match findVal fs "choices" with
    | some (.arr cs) =>
      (traverseOpt fix_choice cs).map (fun cs' => Json.obj (updFirst fs "choices" (Json.arr cs')))
    | _ => some j
  | _ => some j

/-! ## Glob permission matching (`Permission::matches_glob`) -/

/-- The string form of a call-argument leaf: strings are taken as-is,
every other value is serialized (`other.to_string()`). -/
def leafStr : Json → String
  | .str s => s
  | v => jsonToString v

/-- `Permission::matches_glob`, parameterized by the regex engine:
`compile` returns `none` exactly when `Regex::new` fails.  A non-string
pattern leaf and an invalid pattern are both skipped by the source's
`continue`; a missing call key for a compiled pattern fails the match. -/
def matches_glob (compile : String → Option (String → Bool))
    (pattern callParams : Json) : Bool :=
  match pattern, callParams with
  | .obj pfs, .obj cfs =>
    pfs.all (fun kv =>
      match kv.2 with
      | .str s =>
        match compile s with
        | none => true
        | some re =>
          match findVal cfs kv.1 with
          | some cv => re (leafStr cv)
          | none => false
      | _ => true)
  | _, _ => false

mutual

/-- Structural Boolean equality of JSON values (the claim-side notion of
matching "literally"). -/
def jsonEqb : Json → Json → Bool
  | .null, .null => true
  | .bool a, .bool b => a = b
  | .num a, .num b => a = b
  | .str a, .str b => a = b
  | .arr xs, .arr ys => jsonListEqb xs ys
  | .obj fs, .obj gs => jsonFieldsEqb fs gs
  | _, _ => false

/-- Elementwise Boolean equality of JSON arrays. -/
def jsonListEqb : List Json → List Json → Bool
  | [], [] => true
  | x :: xs, y :: ys => jsonEqb x y && jsonListEqb xs ys
  | _, _ => false

/-- Entrywise Boolean equality of JSON object field lists. -/
def jsonFieldsEqb : List (String × Json) → List (String × Json) → Bool
  | [], [] => true
  | (k, v) :: xs, (l, w) :: ys => k = l && jsonEqb v w && jsonFieldsEqb xs ys
  | _, _ => false

end

/-- The Glob matching rule exactly as the claim states it: a string pattern
leaf must compile and match, an invalid pattern is a match failure for its
key, and a non-string pattern leaf must equal the call leaf literally. -/
def glob_matches_per_claim (compile : String → Option (String → Bool))
    (pfs cfs : List (String × Json)) : Bool :=
  pfs.all (fun kv =>
    match kv.2 with
    | .str s =>
      match compile s with
      | none => false
      | some re =>
        match findVal cfs kv.1 with
        | some cv => re (leafStr cv)
        | none => false
    | v =>
      match findVal cfs kv.1 with
      | some cv => jsonEqb cv v
      | none => false)

/-! ## Bash tool (`BashTool`)

Process execution is external: the embedding takes the process outcome as a
parameter.  `proc` is what `Command::output` would produce (captured stdout,
stderr and exit code, or a spawn error), and `exceedsTimeout` states that
the process outlives the configured timeout, making the `timeout(...)`
future expire; without a configured timeout the source waits
indefinitely, so the flag is only consulted when a timeout is set. -/

structure BashToolParams where
  command : String
  timeout : Option Nat
  working_dir : Option String
  env : List (String × String)
deriving DecidableEq

inductive ProcResult where
  | output : String → String → Int → ProcResult
  | spawnErr : String → ProcResult
deriving DecidableEq

/-- `BashTool::execute_command`: empty-command validation, then the
timeout-wrapped (or plain) process wait. -/
def execute_command (p : BashToolParams) (exceedsTimeout : Bool) (proc : ProcResult) :
    Except String (String × String × Int) :=
  if rustTrim p.command = "" then Except.error "Command cannot be empty"
  else
    match p.timeout with
    | some t =>
      if exceedsTimeout then
        Except.error ("Command timed out after " ++ toString t ++ " seconds")
      else
        match proc with
        | .output so se ec => Except.ok (so, se, ec)
        | .spawnErr m => Except.error ("Command execution failed: " ++ m)
    | none =>
      match proc with
      | .output so se ec => Except.ok (so, se, ec)
      | .spawnErr m => Except.error m

/-- `BashTool::execute`: output combination and success/error selection on
the exit code (the metadata map is omitted). -/
def BashTool.execute (p : BashToolParams) (exceedsTimeout : Bool) (proc : ProcResult) :
    ToolResult :=
  match execute_command p exceedsTimeout proc with
  | Except.ok (stdout, stderr, exitCode) =>
    let errorMessage : Option String :=
      if exitCode ≠ 0 ∧ stderr ≠ "" then
        some ("Command failed with exit code " ++ toString exitCode ++ ": " ++ stderr)
      else if exitCode ≠ 0 then
        some ("Command failed with exit code " ++ toString exitCode)
      else none
    let output :=
      if stderr = "" then stdout
      else if stdout = "" then stderr
      else stdout ++ "\n--- STDERR ---\n" ++ stderr
    if exitCode = 0 then ToolResult.success output
    else ToolResult.error (errorMessage.getD ("Command failed with exit code " ++ toString exitCode))
  | Except.error e => ToolResult.error e

/-! ## Claim-side predicates -/

/-- An assistant text with no `<think>…</think>` span (trivially true for
every other message): the condition under which think-tag extraction leaves
a message untouched. -/
def noThinkMsg (m : ChatMessageM) : Bool :=
  match m with
  | .assistant (some (.text t)) _ _ => (capturesThink t.data).isNone
  | _ => true

/-- The alternation slot a message occupies in `fix_mistral_alternating`'s
counting: `some true` for a user message, `some false` for an assistant
message without tool calls, `none` for messages the loop does not count. -/
def countedRole : ChatMessageM → Option Bool
  | .user _ => some true
  | .assistant _ _ calls => if noToolCalls calls then some false else none
  | _ => none

/-- Strict alternation of a role sequence starting from an expected role. -/
def altFrom : Bool → List Bool → Bool
  | _, [] => true
  | expect, r :: rest => (r == expect) && altFrom (!expect) rest

/-- Strict alternation of a role sequence (no two adjacent roles equal),
with no constraint on the starting role — alternation as the claim states
it. -/
def alternatesB : List Bool → Bool
  | [] => true
  | [_] => true
  | a :: b :: rest => (a != b) && alternatesB (b :: rest)

/-- Every path in the read-set has a `Read` entry in the operation list. -/
def logInv (st : LogState) : Prop :=
  ∀ p, has_been_read st p = true → (FsOperationType.read, p) ∈ st.operations

/-! ## Concrete instances used by counterexamples and witnesses -/

/-- A world whose only file `f` (holding "a") has been read. -/
def w3 : World := (ReadTool.execute (initWorld [("f", "a")]) "f").2

/-- A batch whose only edit cannot find its pattern. -/
def p3fail : MultiEditToolParams := ⟨"f", [⟨"x", "y", false⟩]⟩

/-- A batch whose only edit rewrites "a" into "b". -/
def p3ok : MultiEditToolParams := ⟨"f", [⟨"a", "b", false⟩]⟩

/-- A response whose think-span removal splices a new `<think>…</think>`
span together from the surrounding text. -/
def r7counter : ChatCompletionResponseM :=
  ⟨[⟨ChatMessageM.assistant (some (MsgContent.text "<th<think>x</think>ink>foo</think>")) none none⟩]⟩

/-- A mistral-model request whose only message is an assistant message
without tool calls: a strictly alternating (one-element) conversation. -/
def p8counter : ChatCompletionParametersM :=
  ⟨"mistral-small-latest", [ChatMessageM.assistant (some (MsgContent.text "hi")) none none]⟩

/-- An upper-cased mistral-named request that the repair does change. -/
def p10mistral : ChatCompletionParametersM :=
  ⟨"MISTRAL-large", [ChatMessageM.assistant (some (MsgContent.text "ok")) none none]⟩

/-- A concrete matcher standing for the compiled regex "^sr.*" on the one
input it is applied to. -/
def c2re : String → Bool := fun t => t = "src"

/-- A concrete regex oracle: "^sr.*" compiles to `c2re`, everything else is
treated as failing to compile. -/
def c2compile : String → Option (String → Bool) :=
  fun s => if s = "^sr.*" then some c2re else none

/-! ## Helper lemmas: substring search -/

theorem isPrefixOf_append_self (pat y : List Char) : pat.isPrefixOf (pat ++ y) = true := by
  induction pat with
  | nil => simp [List.isPrefixOf]
  | cons c rest ih => simp [List.isPrefixOf, ih]

theorem containsSub_self_append (pat y : List Char) : containsSub (pat ++ y) pat = true := by
  cases pat with
  | nil =>
    cases y with
    | nil => simp [containsSub, splitFirst]
    | cons c rest => simp [containsSub, splitFirst, List.isPrefixOf]
  | cons c rest =>
    have h := isPrefixOf_append_self (c :: rest) y
    simp only [List.cons_append] at h
    simp [containsSub, splitFirst, h]

theorem containsSub_append_right (x z pat : List Char) (h : containsSub z pat = true) :
    containsSub (x ++ z) pat = true := by
  induction x with
  | nil => simpa using h
  | cons c x' ih =>
    simp only [containsSub, splitFirst, List.cons_append]
    split
    · simp
    · unfold containsSub at ih
      cases hs : splitFirst pat (x' ++ z) with
      | none => rw [hs] at ih; simp at ih
      | some pr => simp [hs]

/-! ## Helper lemmas: association lists -/

theorem findVal_updFirst_self (fs : List (String × Json)) (k : String) (v nv : Json)
    (h : findVal fs k = some v) : findVal (updFirst fs k nv) k = some nv := by
  induction fs with
  | nil => simp [findVal] at h
  | cons kv rest ih =>
    obtain ⟨k', v'⟩ := kv
    by_cases hk : k' = k
    · subst hk; simp [findVal, updFirst]
    · simp [findVal, updFirst, hk] at h ⊢
      exact ih h

theorem findVal_updFirst_ne (fs : List (String × Json)) (k k' : String) (nv : Json)
    (h : k' ≠ k) : findVal (updFirst fs k nv) k' = findVal fs k' := by
  induction fs with
  | nil => simp [updFirst]
  | cons kv rest ih =>
    obtain ⟨k0, v0⟩ := kv
    have hkk : ¬ (k = k') := fun hh => h hh.symm
    by_cases hk : k0 = k
    · have hne : ¬ (k0 = k') := by rw [hk]; exact fun hh => h hh.symm
      simp [updFirst, findVal, hk, hne, hkk]
    · by_cases hk' : k0 = k' <;> simp [updFirst, findVal, hk, hk', ih, h]

theorem findVal_append_left (fs gs : List (String × Json)) (k : String) (v : Json)
    (h : findVal fs k = some v) : findVal (fs ++ gs) k = some v := by
  induction fs with
  | nil => simp [findVal] at h
  | cons kv rest ih =>
    obtain ⟨k0, v0⟩ := kv
    by_cases hk : k0 = k
    · subst hk; simp [findVal] at h ⊢; exact h
    · simp [findVal, hk] at h ⊢; exact ih h

theorem findVal_append_of_none (fs gs : List (String × Json)) (k : String)
    (h : findVal fs k = none) : findVal (fs ++ gs) k = findVal gs k := by
  induction fs with
  | nil => simp
  | cons kv rest ih =>
    obtain ⟨k0, v0⟩ := kv
    by_cases hk : k0 = k
    · subst hk; simp [findVal] at h
    · simp [findVal, hk] at h ⊢; exact ih h

theorem traverseOpt_length {α β : Type} (f : α → Option β) :
    ∀ (l : List α) (l' : List β), traverseOpt f l = some l' → l'.length = l.length := by
  intro l
  induction l with
  | nil => intro l' h; simp [traverseOpt] at h; simp [← h]
  | cons x xs ih =>
    intro l' h
    simp only [traverseOpt] at h
    cases hf : f x with
    | none => rw [hf] at h; simp at h
    | some y =>
      rw [hf] at h
      cases hrest : traverseOpt f xs with
      | none => rw [hrest] at h; simp at h
      | some ys =>
        rw [hrest] at h
        simp at h
        subst h
        simp [ih ys hrest]

/-! ## Helper lemmas: operation-log invariant -/

theorem logInv_initial : logInv LogState.initial := by
  intro p h
  simp [has_been_read, LogState.initial] at h

theorem logInv_log_operation {st : LogState} (h : logInv st) (t : FsOperationType) (q : String) :
    logInv (log_operation st t q) := by
  intro p hp
  simp only [has_been_read, log_operation] at hp
  simp only [log_operation, List.mem_append]
  by_cases ht : t = FsOperationType.read
  · subst ht
    rw [if_pos rfl] at hp
    unfold insertPath at hp
    by_cases hc : st.readFiles.contains q = true
    · rw [if_pos hc] at hp
      exact Or.inl (h p hp)
    · rw [if_neg hc] at hp
      have hmem : p ∈ st.readFiles ++ [q] := by simpa using hp
      rcases List.mem_append.mp hmem with h1 | h1
      · exact Or.inl (h p (by simpa [has_been_read] using h1))
      · simp at h1
        subst h1
        simp
  · rw [if_neg ht] at hp
    exact Or.inl (h p hp)

theorem perform_edit_log (st : World) (p : EditToolParams) (pv : Bool) :
    ((perform_edit st p pv).2).log = st.log := by
  unfold perform_edit
  split
  · rfl
  · split
    · rfl
    · split
      · rfl
      · simp [commit_edit]

theorem perform_multi_edit_log (st : World) (p : MultiEditToolParams) (pv : Bool) :
    ((perform_multi_edit st p pv).2).log = st.log := by
  unfold perform_multi_edit
  split
  · rfl
  · split
    · rfl
    · split
      · rfl
      · simp [commit_edit]

theorem stepCmd_logInv {st : World} (h : logInv st.log) (c : Cmd) :
    logInv ((stepCmd st c).2).log := by
  cases c with
  | readC q =>
    simp only [stepCmd, ReadTool.execute]
    split
    · exact h
    · exact logInv_log_operation h _ _
  | writeC q cnt =>
    simp only [stepCmd, WriteTool.execute]
    exact logInv_log_operation h _ _
  | editC p =>
    simp only [stepCmd, EditTool.execute_internal]
    split
    · exact h
    · split
      · exact h
      · split
        · next heq =>
          simp only []
          rw [if_neg (by simp)]
          have hl : (perform_edit st p false).2.log = st.log := perform_edit_log st p false
          rw [show (perform_edit st p false).2 = (Prod.mk (perform_edit st p false).1 (perform_edit st p false).2).2 from rfl] at hl
          rw [heq] at hl
          simp at hl
          rw [hl]
          exact logInv_log_operation h _ _
        · next heq =>
          have hl : (perform_edit st p false).2.log = st.log := perform_edit_log st p false
          rw [show (perform_edit st p false).2 = (Prod.mk (perform_edit st p false).1 (perform_edit st p false).2).2 from rfl] at hl
          rw [heq] at hl
          simp at hl
          rw [hl]
          exact h
  | multiC p =>
    simp only [stepCmd, MultiEditTool.execute_internal]
    split
    · exact h
    · split
      · exact h
      · split
        · next heq =>
          simp only []
          rw [if_neg (by simp)]
          have hl : (perform_multi_edit st p false).2.log = st.log := perform_multi_edit_log st p false
          rw [show (perform_multi_edit st p false).2 = (Prod.mk (perform_multi_edit st p false).1 (perform_multi_edit st p false).2).2 from rfl] at hl
          rw [heq] at hl
          simp at hl
          rw [hl]
          exact logInv_log_operation h _ _
        · next heq =>
          have hl : (perform_multi_edit st p false).2.log = st.log := perform_multi_edit_log st p false
          rw [show (perform_multi_edit st p false).2 = (Prod.mk (perform_multi_edit st p false).1 (perform_multi_edit st p false).2).2 from rfl] at hl
          rw [heq] at hl
          simp at hl
          rw [hl]
          exact h

theorem runCmds_logInv (files : List (String × String)) (cmds : List Cmd) :
    logInv ((runCmds (initWorld files) cmds)).log := by
  suffices h : ∀ (cmds : List Cmd) (st : World), logInv st.log → logInv (runCmds st cmds).log by
    exact h cmds (initWorld files) logInv_initial
  intro cmds
  induction cmds with
  | nil => intro st h; exact h
  | cons c rest ih => intro st h; exact ih _ (stepCmd_logInv h c)

/-! ## Helper lemmas: edit/multiedit execution shapes -/

theorem edit_success_shape (st : World) (p : EditToolParams) (out : String) (st' : World)
    (h : EditTool.execute_internal st p false = (ToolResult.success out, st')) :
    has_been_read st.log p.path = true ∧
    st'.log = log_operation st.log FsOperationType.edit p.path := by
  unfold EditTool.execute_internal at h
  by_cases h1 : p.old_string = p.new_string
  · rw [if_pos h1] at h
    exact absurd (congrArg Prod.fst h) (by simp)
  · rw [if_neg h1] at h
    unfold validate_edit_permission at h
    by_cases h2 : has_been_read st.log p.path = true
    · rw [if_pos h2] at h
      rcases hpe : perform_edit st p false with ⟨res, stw⟩
      rw [hpe] at h
      cases res with
      | error e => simp at h
      | ok msgr =>
        obtain ⟨msg, n⟩ := msgr
        simp only [Bool.false_eq_true, if_false] at h
        have hl : stw.log = st.log := by
          have hh := perform_edit_log st p false
          rw [hpe] at hh
          exact hh
        refine ⟨h2, ?_⟩
        have h4 : ({ stw with log := log_operation stw.log FsOperationType.edit p.path } : World) = st' :=
          congrArg Prod.snd h
        rw [← h4, hl]
    · rw [if_neg h2] at h
      simp at h

theorem perform_multi_edit_eq (st : World) (p : MultiEditToolParams) (content : String)
    (hfc : fileContent st.files p.file_path = some content) :
    perform_multi_edit st p false =
      match apply_edits content 0 p.edits with
      | Except.error e => (Except.error e, st)
      | Except.ok (f, c) => (Except.ok (myers_diff content f, c), commit_edit st p.file_path f) := by
  unfold perform_multi_edit
  simp only [hfc]
  cases hae : apply_edits content 0 p.edits with
  | error e => simp [hae]
  | ok fc =>
    obtain ⟨f, c⟩ := fc
    simp [hae]

theorem multi_success_shape (st : World) (p : MultiEditToolParams) (out : String) (st' : World)
    (h : MultiEditTool.execute_internal st p false = (ToolResult.success out, st')) :
    has_been_read st.log p.file_path = true ∧
    ∃ content final counts,
      fileContent st.files p.file_path = some content ∧
      apply_edits content 0 p.edits = Except.ok (final, counts) ∧
      out = myers_diff content final ∧
      st' = ⟨setFile st.files p.file_path final,
             log_operation st.log FsOperationType.multiEdit p.file_path,
             st.writes ++ [(p.file_path, final)]⟩ := by
  unfold MultiEditTool.execute_internal at h
  by_cases h1 : p.edits.isEmpty = true
  · rw [if_pos h1] at h
    exact absurd (congrArg Prod.fst h) (by simp)
  · rw [if_neg h1] at h
    unfold validate_edit_permission at h
    by_cases h2 : has_been_read st.log p.file_path = true
    · rw [if_pos h2] at h
      cases hfc : fileContent st.files p.file_path with
      | none =>
        unfold perform_multi_edit at h
        rw [hfc] at h
        simp at h
      | some content =>
        rw [perform_multi_edit_eq st p content hfc] at h
        cases hae : apply_edits content 0 p.edits with
        | error e => rw [hae] at h; simp at h
        | ok fc =>
          obtain ⟨final, counts⟩ := fc
          rw [hae] at h
          simp only [Bool.false_eq_true, if_false, Prod.mk.injEq] at h
          obtain ⟨hA, hB⟩ := h
          refine ⟨h2, content, final, counts, rfl, hae, ?_, ?_⟩
          · have hx := congrArg (fun r => match r with
              | ToolResult.success o => o
              | ToolResult.error o => o) hA
            simpa using hx.symm
          · rw [← hB]
            simp [commit_edit]
    · rw [if_neg h2] at h
      simp at h

theorem strContains_append_right (x z pat : String) (h : strContains z pat = true) :
    strContains (x ++ z) pat = true := by
  unfold strContains at *
  rw [String.data_append]
  exact containsSub_append_right _ _ _ h

theorem strContains_self_append (pat y : String) : strContains (pat ++ y) pat = true := by
  unfold strContains
  rw [String.data_append]
  exact containsSub_self_append _ _

theorem strContains_self (pat : String) : strContains pat pat = true := by
  have h := strContains_self_append pat ""
  simpa using h

theorem validate_msg_contains (p : String) :
    strContains ("Cannot edit file " ++ sq ++ p ++ sq
      ++ ": The file must be read first using the Read tool before it can be edited.")
      "must be read first" = true := by
  rw [show (": The file must be read first using the Read tool before it can be edited." : String)
      = ": The file " ++ ("must be read first" ++ " using the Read tool before it can be edited.")
    from by decide]
  apply strContains_append_right
  apply strContains_append_right
  exact strContains_self_append _ _

theorem edit_unread (st : World) (p : EditToolParams)
    (h : has_been_read st.log p.path = false) :
    (EditTool.execute_internal st p false).2 = st ∧
    (EditTool.execute_internal st p false).1.isError = true ∧
    (p.old_string ≠ p.new_string →
      (EditTool.execute_internal st p false).1 = ToolResult.error
        ("Cannot edit file " ++ sq ++ p.path ++ sq
          ++ ": The file must be read first using the Read tool before it can be edited.")) := by
  unfold EditTool.execute_internal validate_edit_permission
  by_cases h1 : p.old_string = p.new_string
  · simp [h1, ToolResult.isError]
  · simp [h1, h, ToolResult.isError]

theorem multi_unread (st : World) (p : MultiEditToolParams)
    (h : has_been_read st.log p.file_path = false) :
    (MultiEditTool.execute_internal st p false).2 = st ∧
    (MultiEditTool.execute_internal st p false).1.isError = true ∧
    (p.edits ≠ [] →
      (MultiEditTool.execute_internal st p false).1 = ToolResult.error
        ("Cannot edit file " ++ sq ++ p.file_path ++ sq
          ++ ": The file must be read first using the Read tool before it can be edited.")) := by
  unfold MultiEditTool.execute_internal validate_edit_permission
  by_cases h1 : p.edits.isEmpty = true
  · simp [h1, ToolResult.isError, List.isEmpty_iff.mp h1]
  · simp [h1, h, ToolResult.isError]

theorem multi_apply_fail (st : World) (p : MultiEditToolParams) (content e : String)
    (hfc : fileContent st.files p.file_path = some content)
    (hae : apply_edits content 0 p.edits = Except.error e) :
    (MultiEditTool.execute_internal st p false).1.isError = true ∧
    (MultiEditTool.execute_internal st p false).2 = st := by
  unfold MultiEditTool.execute_internal
  by_cases h1 : p.edits.isEmpty = true
  · simp [h1, ToolResult.isError]
  · rw [if_neg h1]
    unfold validate_edit_permission
    by_cases h2 : has_been_read st.log p.file_path = true
    · rw [if_pos h2]
      rw [perform_multi_edit_eq st p content hfc, hae]
      simp [ToolResult.isError]
    · rw [if_neg h2]
      simp [ToolResult.isError]

/-! ## Helper lemmas: preview leaves the world unchanged -/

theorem perform_edit_preview_state (st : World) (p : EditToolParams) :
    (perform_edit st p true).2 = st := by
  unfold perform_edit
  split
  · rfl
  · split
    · rfl
    · rfl

theorem perform_multi_edit_preview_state (st : World) (p : MultiEditToolParams) :
    (perform_multi_edit st p true).2 = st := by
  unfold perform_multi_edit
  split
  · rfl
  · split
    · rfl
    · rfl

theorem edit_preview_state (st : World) (p : EditToolParams) :
    (EditTool.execute_internal st p true).2 = st := by
  unfold EditTool.execute_internal
  split
  · rfl
  · split
    · rfl
    · split
      · next msg n st2 heq =>
        have hs := perform_edit_preview_state st p
        rw [heq] at hs
        simpa using hs
      · next e st2 heq =>
        have hs := perform_edit_preview_state st p
        rw [heq] at hs
        simpa using hs

theorem multi_preview_state (st : World) (p : MultiEditToolParams) :
    (MultiEditTool.execute_internal st p true).2 = st := by
  unfold MultiEditTool.execute_internal
  split
  · rfl
  · split
    · rfl
    · split
      · next msg n st2 heq =>
        have hs := perform_multi_edit_preview_state st p
        rw [heq] at hs
        simpa using hs
      · next e st2 heq =>
        have hs := perform_multi_edit_preview_state st p
        rw [heq] at hs
        simpa using hs

/-! ## Helper lemmas: diff of equal contents -/

theorem diffGo_self (ls : List String) : ∀ fuel, ls.length ≤ fuel →
    diffGo fuel ls ls = ls.map (fun a => (ChangeTag.equal, a)) := by
  induction ls with
  | nil => intro fuel h; cases fuel <;> simp [diffGo]
  | cons a as ih =>
    intro fuel h
    cases fuel with
    | zero => simp at h
    | succ f =>
      simp only [diffGo, List.map_cons]
      rw [ih f (by simpa using h)]
      simp

theorem myers_diff_self (s : String) : myers_diff s s = "No changes" := by
  unfold myers_diff diffChanges
  rw [diffGo_self _ _ (by omega)]
  simp

theorem edit_preview_output (st : World) (p : EditToolParams) (content nc : String) (n : Nat)
    (hfc : fileContent st.files p.path = some content)
    (hpe : perform_edit_on_content content p.old_string p.new_string p.replace_all
      = Except.ok (nc, n))
    (h2 : has_been_read st.log p.path = true) (h1 : p.old_string ≠ p.new_string) :
    (EditTool.execute_internal st p true).1 = ToolResult.success ("\n" ++ myers_diff content nc) := by
  unfold EditTool.execute_internal validate_edit_permission perform_edit
  simp [h1, h2, hfc, hpe]

theorem multi_preview_output (st : World) (p : MultiEditToolParams)
    (content final : String) (counts : List Nat)
    (hfc : fileContent st.files p.file_path = some content)
    (hae : apply_edits content 0 p.edits = Except.ok (final, counts))
    (h2 : has_been_read st.log p.file_path = true) (h1 : p.edits ≠ []) :
    (MultiEditTool.execute_internal st p true).1 = ToolResult.success (myers_diff content final) := by
  unfold MultiEditTool.execute_internal validate_edit_permission perform_multi_edit
  simp [h1, h2, hfc, hae]

/-! ## Helper lemmas: think-tag extraction -/

theorem extract_msg_id (m : ChatMessageM) (h : noThinkMsg m = true) :
    extract_think_message m = m := by
  cases m with
  | system s => rfl
  | user c => rfl
  | tool a b => rfl
  | assistant content reasoning calls =>
    cases content with
    | none => rfl
    | some mc =>
      cases mc with
      | parts l => rfl
      | text t =>
        simp only [noThinkMsg] at h
        cases hc : capturesThink t.data with
        | some inner => rw [hc] at h; simp at h
        | none => simp [extract_think_message, hc]

/-! ## Helper lemmas: alternation repair -/

theorem fixAltGo_self (ms : List ChatMessageM) : ∀ pos : Nat,
    altFrom (decide (pos % 2 = 0)) (ms.filterMap countedRole) = true → fixAltGo pos ms = ms := by
  induction ms with
  | nil => intro pos h; rfl
  | cons m rest ih =>
    intro pos h
    cases m with
    | user c =>
      rw [List.filterMap_cons_some (show countedRole (ChatMessageM.user c) = some true from rfl)] at h
      simp only [altFrom, Bool.and_eq_true] at h
      obtain ⟨h1, h2⟩ := h
      have hp : pos % 2 = 0 := by simpa using h1.symm
      have hp1 : (pos + 1) % 2 ≠ 0 := by omega
      simp only [fixAltGo, hp]
      rw [if_neg (by simp [hp])]
      rw [ih (pos + 1) (by simpa [hp, hp1] using h2)]
    | assistant c r calls =>
      by_cases hnt : noToolCalls calls = true
      · have hrole : countedRole (ChatMessageM.assistant c r calls) = some false := by
          simp [countedRole, hnt]
        rw [List.filterMap_cons_some hrole] at h
        simp only [altFrom, Bool.and_eq_true] at h
        obtain ⟨h1, h2⟩ := h
        have hp : pos % 2 ≠ 0 := by
          intro hc
          rw [hc] at h1
          simp at h1
        have hp1 : (pos + 1) % 2 = 0 := by omega
        simp only [fixAltGo, hnt]
        rw [if_pos trivial, if_neg hp]
        rw [ih (pos + 1) (by simpa [hp, hp1] using h2)]
      · have hrole : countedRole (ChatMessageM.assistant c r calls) = none := by
          simp [countedRole, hnt]
        rw [List.filterMap_cons_none hrole] at h
        simp only [fixAltGo, hnt]
        rw [if_neg (by simp [hnt])]
        rw [ih pos h]
    | system s =>
      rw [List.filterMap_cons_none
        (show countedRole (ChatMessageM.system s) = none from rfl)] at h
      simp only [fixAltGo]
      rw [ih pos h]
    | tool a b =>
      rw [List.filterMap_cons_none
        (show countedRole (ChatMessageM.tool a b) = none from rfl)] at h
      simp only [fixAltGo]
      rw [ih pos h]

/-! ## Helper lemmas: glob matching per key -/

theorem matches_glob_elem_iff (compile : String → Option (String → Bool))
    (cfs : List (String × Json)) (kv : String × Json) :
    (match kv.2 with
      | Json.str s =>
        match compile s with
        | none => true
        | some re =>
          match findVal cfs kv.1 with
          | some cv => re (leafStr cv)
          | none => false
      | _ => true) = true ↔
    (∀ s, kv.2 = Json.str s → ∀ re, compile s = some re →
      ∃ cv, findVal cfs kv.1 = some cv ∧ re (leafStr cv) = true) := by
  obtain ⟨k, v⟩ := kv
  cases v with
  | null => simp
  | bool b => simp
  | num n => simp
  | arr xs => simp
  | obj fs => simp
  | str s =>
    cases hc : compile s with
    | none => simp [hc]
    | some re =>
      cases hf : findVal cfs k with
      | some cv => simp [hc, hf]
      | none => simp [hc, hf]

/-! ## Claim C1: read-before-edit -/

/-- C1, counterexample: on an unread path, an `edit` whose `old_string`
equals `new_string` is rejected by the parameter validation that runs
before the read-before-edit check, so the returned error does not contain
"must be read first" — contradicting the claim that every edit on an
unread path fails with that message. -/
theorem c1_counterexample :
    has_been_read (initWorld [("a.txt", "hello")]).log "a.txt" = false ∧
    (EditTool.execute_internal (initWorld [("a.txt", "hello")]) ⟨"a.txt", "x", "x", false⟩ false).1
      = ToolResult.error "old_string and new_string cannot be the same" ∧
    strContains "old_string and new_string cannot be the same" "must be read first" = false := by
  refine ⟨by decide, by decide, by decide⟩

/-- C1 (amended): on a path absent from the read-set, `edit` and
`multiedit` return an Error and leave the world (disk, write trace and
operation log) unchanged; the error contains "must be read first" whenever
the preliminary parameter validation passes (`old_string ≠ new_string` for
edit, a non-empty batch for multiedit); and every successful `edit` in any
tool sequence starting from a fresh operation log has a prior successful
`read` of the same path recorded in the operation log, the new `Edit` entry
being appended after it. -/
theorem c1_read_before_edit_amended :
    (∀ (st : World) (p : EditToolParams), has_been_read st.log p.path = false →
      (EditTool.execute_internal st p false).2 = st ∧
      (EditTool.execute_internal st p false).1.isError = true ∧
      (p.old_string ≠ p.new_string →
        ∃ e, (EditTool.execute_internal st p false).1 = ToolResult.error e ∧
          strContains e "must be read first" = true)) ∧
    (∀ (st : World) (p : MultiEditToolParams), has_been_read st.log p.file_path = false →
      (MultiEditTool.execute_internal st p false).2 = st ∧
      (MultiEditTool.execute_internal st p false).1.isError = true ∧
      (p.edits ≠ [] →
        ∃ e, (MultiEditTool.execute_internal st p false).1 = ToolResult.error e ∧
          strContains e "must be read first" = true)) ∧
    (∀ (files : List (String × String)) (cmds : List Cmd) (p : EditToolParams)
        (out : String) (st' : World),
      stepCmd (runCmds (initWorld files) cmds) (Cmd.editC p) = (ToolResult.success out, st') →
      (FsOperationType.read, p.path) ∈ (runCmds (initWorld files) cmds).log.operations ∧
      st'.log.operations
        = (runCmds (initWorld files) cmds).log.operations ++ [(FsOperationType.edit, p.path)]) := by
  refine ⟨fun st p h => ?_, fun st p h => ?_, fun files cmds p out st' h => ?_⟩
  · obtain ⟨ha, hb, hc⟩ := edit_unread st p h
    exact ⟨ha, hb, fun hne => ⟨_, hc hne, validate_msg_contains p.path⟩⟩
  · obtain ⟨ha, hb, hc⟩ := multi_unread st p h
    exact ⟨ha, hb, fun hne => ⟨_, hc hne, validate_msg_contains p.file_path⟩⟩
  · obtain ⟨hrr, hlog⟩ := edit_success_shape _ p out st' h
    refine ⟨runCmds_logInv files cmds p.path hrr, ?_⟩
    rw [hlog]
    rfl

/-- C1, witness: a concrete unread edit is rejected without touching the
world, and a concrete read-then-edit sequence leaves the `Read` entry ahead
of the appended `Edit` entry. -/
theorem c1_read_before_edit_witness :
    (EditTool.execute_internal (initWorld [("f", "a")]) ⟨"f", "a", "b", false⟩ false).2
      = initWorld [("f", "a")] ∧
    (FsOperationType.read, "f") ∈ (runCmds (initWorld [("f", "a")]) [Cmd.readC "f"]).log.operations ∧
    (stepCmd (runCmds (initWorld [("f", "a")]) [Cmd.readC "f"]) (Cmd.editC ⟨"f", "a", "b", false⟩)).2.log.operations
      = (runCmds (initWorld [("f", "a")]) [Cmd.readC "f"]).log.operations
        ++ [(FsOperationType.edit, "f")] := by
  refine ⟨(c1_read_before_edit_amended.1 (initWorld [("f", "a")]) ⟨"f", "a", "b", false⟩ (by decide)).1, ?_, ?_⟩
  · exact (c1_read_before_edit_amended.2.2 [("f", "a")] [Cmd.readC "f"] ⟨"f", "a", "b", false⟩ _ _ rfl).1
  · exact (c1_read_before_edit_amended.2.2 [("f", "a")] [Cmd.readC "f"] ⟨"f", "a", "b", false⟩ _ _ rfl).2

/-! ## Claim C3: multiedit atomicity -/

/-- C3: if the sequential in-memory application of a batch fails, the
multiedit returns an Error and the world is unchanged (no write, no log
entry); on success the tool performs exactly one disk write, whose content
is the sequential application of all edits in order, and returns their
combined diff. -/
theorem c3_multiedit_atomicity :
    (∀ (st : World) (p : MultiEditToolParams) (content e : String),
      fileContent st.files p.file_path = some content →
      apply_edits content 0 p.edits = Except.error e →
      (MultiEditTool.execute_internal st p false).1.isError = true ∧
      (MultiEditTool.execute_internal st p false).2 = st) ∧
    (∀ (st : World) (p : MultiEditToolParams) (out : String) (st' : World),
      MultiEditTool.execute_internal st p false = (ToolResult.success out, st') →
      ∃ content final counts,
        fileContent st.files p.file_path = some content ∧
        apply_edits content 0 p.edits = Except.ok (final, counts) ∧
        out = myers_diff content final ∧
        st'.files = setFile st.files p.file_path final ∧
        st'.writes = st.writes ++ [(p.file_path, final)]) := by
  refine ⟨fun st p content e hfc hae => multi_apply_fail st p content e hfc hae,
    fun st p out st' h => ?_⟩
  obtain ⟨_, content, final, counts, hfc, hae, hout, hst⟩ := multi_success_shape st p out st' h
  exact ⟨content, final, counts, hfc, hae, hout, by rw [hst], by rw [hst]⟩

/-- C3, witness: concretely, a failing batch leaves the world untouched,
and a succeeding one performs exactly one write with the folded content. -/
theorem c3_multiedit_atomicity_witness :
    ((MultiEditTool.execute_internal w3 p3fail false).1.isError = true ∧
      (MultiEditTool.execute_internal w3 p3fail false).2 = w3) ∧
    (∃ content final counts,
      fileContent w3.files "f" = some content ∧
      apply_edits content 0 p3ok.edits = Except.ok (final, counts) ∧
      (MultiEditTool.execute_internal w3 p3ok false).1 = ToolResult.success (myers_diff content final) ∧
      (MultiEditTool.execute_internal w3 p3ok false).2.files = setFile w3.files "f" final ∧
      (MultiEditTool.execute_internal w3 p3ok false).2.writes = w3.writes ++ [("f", final)]) := by
  constructor
  · exact c3_multiedit_atomicity.1 w3 p3fail "a"
      ("Edit #1: Pattern " ++ sq ++ "x" ++ sq ++ " not found in content") rfl rfl
  · exact ⟨"a", "b", [1], rfl, rfl, by decide, by decide, by decide⟩

/-! ## Claim C9: previews do not mutate -/

/-- C9: `edit.preview` and `multiedit.preview` leave the whole world (disk
content, write trace and operation log) unchanged; on a successful preview
the returned output is the Myers diff of the in-memory transformation, and
the diff of equal contents is the "No changes" marker. -/
theorem c9_preview_non_mutating :
    (∀ (st : World) (p : EditToolParams), (EditTool.execute_internal st p true).2 = st) ∧
    (∀ (st : World) (p : MultiEditToolParams), (MultiEditTool.execute_internal st p true).2 = st) ∧
    (∀ (st : World) (p : EditToolParams) (content nc : String) (n : Nat),
      fileContent st.files p.path = some content →
      perform_edit_on_content content p.old_string p.new_string p.replace_all = Except.ok (nc, n) →
      has_been_read st.log p.path = true → p.old_string ≠ p.new_string →
      (EditTool.execute_internal st p true).1 = ToolResult.success ("\n" ++ myers_diff content nc)) ∧
    (∀ (st : World) (p : MultiEditToolParams) (content final : String) (counts : List Nat),
      fileContent st.files p.file_path = some content →
      apply_edits content 0 p.edits = Except.ok (final, counts) →
      has_been_read st.log p.file_path = true → p.edits ≠ [] →
      (MultiEditTool.execute_internal st p true).1 = ToolResult.success (myers_diff content final)) ∧
    (∀ s : String, myers_diff s s = "No changes") :=
  ⟨edit_preview_state, multi_preview_state,
    fun st p content nc n hfc hpe h2 h1 => edit_preview_output st p content nc n hfc hpe h2 h1,
    fun st p content final counts hfc hae h2 h1 =>
      multi_preview_output st p content final counts hfc hae h2 h1,
    myers_diff_self⟩

/-- C9, witness: a concrete round-trip batch previews as "No changes" and
leaves the world identical. -/
theorem c9_preview_non_mutating_witness :
    (MultiEditTool.execute_internal w3 ⟨"f", [⟨"a", "b", false⟩, ⟨"b", "a", false⟩]⟩ true).2 = w3 ∧
    (MultiEditTool.execute_internal w3 ⟨"f", [⟨"a", "b", false⟩, ⟨"b", "a", false⟩]⟩ true).1
      = ToolResult.success "No changes" ∧
    myers_diff "a" "a" = "No changes" := by
  refine ⟨c9_preview_non_mutating.2.1 w3 ⟨"f", [⟨"a", "b", false⟩, ⟨"b", "a", false⟩]⟩, ?_, ?_⟩
  · have h := c9_preview_non_mutating.2.2.2.1 w3 ⟨"f", [⟨"a", "b", false⟩, ⟨"b", "a", false⟩]⟩
      "a" "a" [1, 1] rfl rfl (by decide) (by decide)
    rw [h, c9_preview_non_mutating.2.2.2.2 "a"]
  · exact c9_preview_non_mutating.2.2.2.2 "a"

/-! ## Claim C5: bash result contract -/

theorem bash_execute_output (p : BashToolParams) (so se : String) (ec : Int)
    (htrim : rustTrim p.command ≠ "") :
    BashTool.execute p false (ProcResult.output so se ec) =
      if ec = 0 then
        ToolResult.success
          (if se = "" then so else if so = "" then se else so ++ "\n--- STDERR ---\n" ++ se)
      else
        ToolResult.error
          (if se = "" then "Command failed with exit code " ++ toString ec
           else "Command failed with exit code " ++ toString ec ++ ": " ++ se) := by
  unfold BashTool.execute execute_command
  rw [if_neg htrim]
  cases ht : p.timeout with
  | none =>
    by_cases hec : ec = 0 <;> by_cases hse : se = "" <;> by_cases hso : so = "" <;>
      simp [hec, hse, hso, Option.getD]
  | some t =>
    by_cases hec : ec = 0 <;> by_cases hse : se = "" <;> by_cases hso : so = "" <;>
      simp [hec, hse, hso, Option.getD]

/-- C5, counterexample: with empty stdout and non-empty stderr a
successful command returns the bare stderr, not
stdout ++ "\n--- STDERR ---\n" ++ stderr as the claim requires. -/
theorem c5_counterexample :
    BashTool.execute ⟨"x", none, none, []⟩ false (ProcResult.output "" "warn" 0)
      = ToolResult.success "warn" ∧
    "warn" ≠ "" ++ "\n--- STDERR ---\n" ++ "warn" := by
  exact ⟨by decide, by decide⟩

/-- C5 (amended): for a command that actually runs, the result is Success
iff the exit code is 0; the Success output is stdout when stderr is empty,
the bare stderr when stdout is empty, and stdout ++ "\n--- STDERR ---\n" ++
stderr when both are non-empty; a non-zero exit code yields an Error
containing "Command failed with exit code N"; and an expired timeout
yields an Error containing "Command timed out after N seconds". -/
theorem c5_bash_result_amended :
    (∀ (p : BashToolParams) (so se : String) (ec : Int), rustTrim p.command ≠ "" →
      ((BashTool.execute p false (ProcResult.output so se ec)).isError = false ↔ ec = 0) ∧
      (ec = 0 → se = "" →
        BashTool.execute p false (ProcResult.output so se ec) = ToolResult.success so) ∧
      (ec = 0 → so = "" → se ≠ "" →
        BashTool.execute p false (ProcResult.output so se ec) = ToolResult.success se) ∧
      (ec = 0 → so ≠ "" → se ≠ "" →
        BashTool.execute p false (ProcResult.output so se ec)
          = ToolResult.success (so ++ "\n--- STDERR ---\n" ++ se)) ∧
      (ec ≠ 0 → ∃ e, BashTool.execute p false (ProcResult.output so se ec) = ToolResult.error e ∧
        strContains e ("Command failed with exit code " ++ toString ec) = true)) ∧
    (∀ (p : BashToolParams) (t : Nat) (proc : ProcResult), p.timeout = some t →
      rustTrim p.command ≠ "" →
      ∃ e, BashTool.execute p true proc = ToolResult.error e ∧
        strContains e ("Command timed out after " ++ toString t ++ " seconds") = true) := by
  constructor
  · intro p so se ec htrim
    rw [bash_execute_output p so se ec htrim]
    refine ⟨?_, ?_, ?_, ?_, ?_⟩
    · by_cases hec : ec = 0 <;> simp [hec, ToolResult.isError]
    · intro hec hse; simp [hec, hse]
    · intro hec hso hse; simp [hec, hso, hse]
    · intro hec hso hse; simp [hec, hso, hse]
    · intro hec
      rw [if_neg hec]
      by_cases hse : se = ""
      · exact ⟨_, by rw [if_pos hse], strContains_self _⟩
      · refine ⟨_, by rw [if_neg hse], ?_⟩
        rw [String.append_assoc]
        exact strContains_self_append _ _
  · intro p t proc ht htrim
    refine ⟨_, ?_, strContains_self _⟩
    unfold BashTool.execute execute_command
    rw [if_neg htrim, ht]
    simp

/-- C5, witness: the amended contract evaluated on concrete runs — a clean
success, a stderr-only success, a failure with exit code 2, and an expired
five-second timeout. -/
theorem c5_bash_result_witness :
    BashTool.execute ⟨"echo", none, none, []⟩ false (ProcResult.output "hi\n" "" 0)
      = ToolResult.success "hi\n" ∧
    (∃ e, BashTool.execute ⟨"bad", none, none, []⟩ false (ProcResult.output "" "boom" 2)
        = ToolResult.error e ∧
      strContains e ("Command failed with exit code " ++ toString (2 : Int)) = true) ∧
    (∃ e, BashTool.execute ⟨"sleep 9", some 5, none, []⟩ true (ProcResult.output "" "" 0)
        = ToolResult.error e ∧
      strContains e ("Command timed out after " ++ toString (5 : Nat) ++ " seconds") = true) :=
  ⟨(c5_bash_result_amended.1 ⟨"echo", none, none, []⟩ "hi\n" "" 0 (by decide)).2.1 rfl rfl,
    (c5_bash_result_amended.1 ⟨"bad", none, none, []⟩ "" "boom" 2 (by decide)).2.2.2.2 (by decide),
    c5_bash_result_amended.2 ⟨"sleep 9", some 5, none, []⟩ 5 (ProcResult.output "" "" 0)
      rfl (by decide)⟩

/-! ## Claim C6: no_op stripping -/

/-- C6: when the first choice is an assistant message whose tool-call list
is exactly one call named "no_op", the required-function-calling strategy
returns the response with that list removed; an assistant first choice with
any other tool-call list is passed through unchanged. -/
theorem c6_no_op_stripping :
    (∀ (content : Option MsgContent) (reasoning : Option String) (tc : ToolCallM)
        (rest : List ChoiceM),
      tc.name = "no_op" →
      strip_no_op ⟨⟨ChatMessageM.assistant content reasoning (some [tc])⟩ :: rest⟩
        = some ⟨⟨ChatMessageM.assistant content reasoning none⟩ :: rest⟩) ∧
    (∀ (content : Option MsgContent) (reasoning : Option String)
        (calls : Option (List ToolCallM)) (rest : List ChoiceM),
      (∀ tc, calls = some [tc] → tc.name ≠ "no_op") →
      strip_no_op ⟨⟨ChatMessageM.assistant content reasoning calls⟩ :: rest⟩
        = some ⟨⟨ChatMessageM.assistant content reasoning calls⟩ :: rest⟩) := by
  constructor
  · intro content reasoning tc rest h
    simp [strip_no_op, h]
  · intro content reasoning calls rest h
    cases calls with
    | none => rfl
    | some l =>
      cases l with
      | nil => rfl
      | cons tc l' =>
        cases l' with
        | nil =>
          have hne := h tc rfl
          simp [strip_no_op, hne]
        | cons b l'' => rfl

/-- C6, witness: a sole `no_op` call is stripped, a sole `ls` call is
kept. -/
theorem c6_no_op_stripping_witness :
    strip_no_op ⟨[⟨ChatMessageM.assistant none none (some [⟨"1", "no_op", ""⟩])⟩]⟩
      = some ⟨[⟨ChatMessageM.assistant none none none⟩]⟩ ∧
    strip_no_op ⟨[⟨ChatMessageM.assistant none none (some [⟨"1", "ls", ""⟩])⟩]⟩
      = some ⟨[⟨ChatMessageM.assistant none none (some [⟨"1", "ls", ""⟩])⟩]⟩ :=
  ⟨c6_no_op_stripping.1 none none ⟨"1", "no_op", ""⟩ [] rfl,
    c6_no_op_stripping.2 none none (some [⟨"1", "ls", ""⟩]) [] (by
      intro tc h
      injection h with h1
      injection h1 with h2 h3
      rw [← h2]
      decide)⟩

/-! ## Claim C7: think-tag extraction idempotency -/

/-- C7, counterexample: removing the think spans of
"<th<think>x</think>ink>foo</think>" splices together a brand-new
"<think>foo</think>" span, so a second extraction still changes the
response — extraction is not idempotent. -/
theorem c7_counterexample :
    extract_think_content (extract_think_content r7counter) ≠ extract_think_content r7counter := by
  decide

/-- C7 (amended): think-tag extraction applied twice equals applying it
once on every response whose once-extracted assistant contents contain no
remaining `<think>…</think>` span (span removal can splice a new span
together, in which case a second application moves it too). -/
theorem c7_think_idempotent_amended :
    ∀ r : ChatCompletionResponseM,
      (∀ c ∈ (extract_think_content r).choices, noThinkMsg c.message = true) →
      extract_think_content (extract_think_content r) = extract_think_content r := by
  intro r h
  have hpt : ∀ c ∈ (extract_think_content r).choices,
      (fun c : ChoiceM => (⟨extract_think_message c.message⟩ : ChoiceM)) c = (fun c => c) c := by
    intro c hc
    have h2 := extract_msg_id c.message (h c hc)
    show (⟨extract_think_message c.message⟩ : ChoiceM) = c
    rw [h2]
  show ChatCompletionResponseM.mk
      ((extract_think_content r).choices.map (fun c => ⟨extract_think_message c.message⟩))
    = extract_think_content r
  rw [List.map_congr_left hpt, List.map_id']

/-- C7, witness: one extraction of "<think>a</think>b" leaves no span, and
the second application is the identity on the result. -/
theorem c7_think_idempotent_witness :
    extract_think_content (extract_think_content
        ⟨[⟨ChatMessageM.assistant (some (MsgContent.text "<think>a</think>b")) none none⟩]⟩)
      = extract_think_content
        ⟨[⟨ChatMessageM.assistant (some (MsgContent.text "<think>a</think>b")) none none⟩]⟩ :=
  c7_think_idempotent_amended _ (by decide)

/-! ## Claim C8: alternation repair on alternating sequences -/

/-- C8, counterexample: a mistral request whose only message is an
assistant message without tool calls is strictly alternating (a one-element
role sequence), yet the repair prepends a "Go ahead." user placeholder —
the loop demands that the counted sequence start with a user message. -/
theorem c8_counterexample :
    alternatesB (p8counter.messages.filterMap countedRole) = true ∧
    strContains (lowerAscii p8counter.model) "mistral" = true ∧
    fix_mistral_alternating p8counter ≠ p8counter := by
  refine ⟨by decide, by decide, by decide⟩

/-- C8 (amended): the alternation repair is the identity on every request
whose counted messages (users, and assistants without tool calls) strictly
alternate starting with a user message. -/
theorem c8_alternation_identity_amended :
    ∀ p : ChatCompletionParametersM,
      altFrom true (p.messages.filterMap countedRole) = true →
      fix_mistral_alternating p = p := by
  intro p h
  unfold fix_mistral_alternating
  split
  · rfl
  · have h0 : altFrom (decide (0 % 2 = 0)) (p.messages.filterMap countedRole) = true := by
      simpa using h
    rw [fixAltGo_self p.messages 0 h0]

/-- C8, witness: a user-then-assistant mistral conversation is left
unchanged. -/
theorem c8_alternation_identity_witness :
    fix_mistral_alternating ⟨"mistral-small", [ChatMessageM.user (MsgContent.text "hi"),
        ChatMessageM.assistant (some (MsgContent.text "yo")) none none]⟩
      = ⟨"mistral-small", [ChatMessageM.user (MsgContent.text "hi"),
        ChatMessageM.assistant (some (MsgContent.text "yo")) none none]⟩ :=
  c8_alternation_identity_amended _ (by decide)

/-! ## Claim C2: glob permission matching -/

/-- C2, counterexample: the source skips non-string pattern leaves and
invalid patterns (`continue`), treating them as automatic matches, while
the claim requires a literal match for non-string leaves and a failure for
invalid patterns; pattern leaf 5 against call leaf 6 (and an uncompilable
pattern "(" against any call) matches in the code but must fail per the
claim. -/
theorem c2_counterexample :
    matches_glob (fun _ => none) (Json.obj [("k", Json.num 5)]) (Json.obj [("k", Json.num 6)])
      = true ∧
    glob_matches_per_claim (fun _ => none) [("k", Json.num 5)] [("k", Json.num 6)] = false ∧
    matches_glob (fun _ => none) (Json.obj [("p", Json.str "(")]) (Json.obj [("p", Json.str "x")])
      = true ∧
    glob_matches_per_claim (fun _ => none) [("p", Json.str "(")] [("p", Json.str "x")] = false := by
  refine ⟨by decide, by decide, by decide, by decide⟩

/-- C2 (amended): a Glob claim matches a call iff both parameter sets are
objects and, for every pattern key whose value is a string that compiles as
a regex, the call contains that key and the regex matches the call leaf's
string form; non-string pattern leaves and invalid patterns are skipped,
and a missing call key for a compiled pattern is a match failure. -/
theorem c2_glob_matching_amended :
    (∀ (compile : String → Option (String → Bool)) (pfs cfs : List (String × Json)),
      matches_glob compile (Json.obj pfs) (Json.obj cfs) = true ↔
        ∀ kv ∈ pfs, ∀ s, kv.2 = Json.str s → ∀ re, compile s = some re →
          ∃ cv, findVal cfs kv.1 = some cv ∧ re (leafStr cv) = true) ∧
    (∀ (compile : String → Option (String → Bool)) (pfs : List (String × Json)) (j : Json),
      (∀ cfs, j ≠ Json.obj cfs) → matches_glob compile (Json.obj pfs) j = false) ∧
    (∀ (compile : String → Option (String → Bool)) (j j' : Json),
      (∀ pfs, j ≠ Json.obj pfs) → matches_glob compile j j' = false) := by
  refine ⟨fun compile pfs cfs => ?_, fun compile pfs j h => ?_, fun compile j j' h => ?_⟩
  · simp only [matches_glob]
    rw [List.all_eq_true]
    exact forall_congr' (fun kv => forall_congr' (fun _ => matches_glob_elem_iff compile cfs kv))
  · cases j with
    | obj cfs => exact absurd rfl (h cfs)
    | null => rfl
    | bool b => rfl
    | num n => rfl
    | str s => rfl
    | arr xs => rfl
  · cases j with
    | obj pfs => exact absurd rfl (h pfs)
    | null => rfl
    | bool b => rfl
    | num n => rfl
    | str s => rfl
    | arr xs => rfl

/-- C2, witness: through the amended characterization, the concrete
pattern "^sr.*" (compiled by the concrete oracle) matches the concrete call
leaf "src". -/
theorem c2_glob_matching_witness :
    ∃ cv, findVal [("path", Json.str "src")] "path" = some cv ∧ c2re (leafStr cv) = true :=
  (c2_glob_matching_amended.1 c2compile [("path", Json.str "^sr.*")]
      [("path", Json.str "src")]).mp
    (by decide) ("path", Json.str "^sr.*") (List.mem_singleton.mpr rfl) "^sr.*" rfl c2re rfl

/-! ## Claim C4: Mistral dialect hooks -/

/-- C4: `before_send` rewrites a `tool_choice` equal to "required" into
"any" and leaves every other field (and any other `tool_choice` value)
unchanged; `after_receive` inserts `"type":"function"` into exactly the
tool-call objects lacking a "type" field along `choices[*].message.
tool_calls[*]`, leaving every other field at every level unchanged and
passing through responses without a choices array. -/
theorem c4_mistral_dialect :
    (∀ fs : List (String × Json), findVal fs "tool_choice" = some (Json.str "required") →
      mistral_before_send (Json.obj fs)
        = Json.obj (updFirst fs "tool_choice" (Json.str "any")) ∧
      findVal (updFirst fs "tool_choice" (Json.str "any")) "tool_choice"
        = some (Json.str "any") ∧
      (∀ k, k ≠ "tool_choice" →
        findVal (updFirst fs "tool_choice" (Json.str "any")) k = findVal fs k)) ∧
    (∀ (fs : List (String × Json)) (v : Json), findVal fs "tool_choice" = some v →
      isStrRequired v = false → mistral_before_send (Json.obj fs) = Json.obj fs) ∧
    (∀ fs : List (String × Json), findVal fs "tool_choice" = none →
      mistral_before_send (Json.obj fs) = Json.obj fs) ∧
    (∀ (tc t : Json), getField tc "type" = some t → fix_tool_call tc = some tc) ∧
    (∀ gs : List (String × Json), findVal gs "type" = none →
      fix_tool_call (Json.obj gs) = some (Json.obj (gs ++ [("type", Json.str "function")])) ∧
      findVal (gs ++ [("type", Json.str "function")]) "type" = some (Json.str "function") ∧
      (∀ k v, findVal gs k = some v →
        findVal (gs ++ [("type", Json.str "function")]) k = some v)) ∧
    (∀ (gs : List (String × Json)) (tcs tcs' : List Json),
      findVal gs "tool_calls" = some (Json.arr tcs) →
      traverseOpt fix_tool_call tcs = some tcs' →
      fix_message (Json.obj gs) = some (Json.obj (updFirst gs "tool_calls" (Json.arr tcs'))) ∧
      tcs'.length = tcs.length ∧
      (∀ k, k ≠ "tool_calls" →
        findVal (updFirst gs "tool_calls" (Json.arr tcs')) k = findVal gs k)) ∧
    (∀ (gs : List (String × Json)) (m m' : Json), findVal gs "message" = some m →
      fix_message m = some m' →
      fix_choice (Json.obj gs) = some (Json.obj (updFirst gs "message" m')) ∧
      (∀ k, k ≠ "message" → findVal (updFirst gs "message" m') k = findVal gs k)) ∧
    (∀ (fs : List (String × Json)) (cs cs' : List Json),
      findVal fs "choices" = some (Json.arr cs) →
      traverseOpt fix_choice cs = some cs' →
      mistral_after_receive (Json.obj fs)
        = some (Json.obj (updFirst fs "choices" (Json.arr cs'))) ∧
      cs'.length = cs.length ∧
      (∀ k, k ≠ "choices" →
        findVal (updFirst fs "choices" (Json.arr cs')) k = findVal fs k)) ∧
    (∀ fs : List (String × Json), (∀ cs, findVal fs "choices" ≠ some (Json.arr cs)) →
      mistral_after_receive (Json.obj fs) = some (Json.obj fs)) := by
  refine ⟨?_, ?_, ?_, ?_, ?_, ?_, ?_, ?_, ?_⟩
  · intro fs h
    refine ⟨?_, findVal_updFirst_self fs "tool_choice" _ _ h, fun k hk =>
      findVal_updFirst_ne fs "tool_choice" k _ hk⟩
    simp [mistral_before_send, h, isStrRequired]
  · intro fs v h hv
    simp [mistral_before_send, h, hv]
  · intro fs h
    simp [mistral_before_send, h]
  · intro tc t h
    simp [fix_tool_call, h]
  · intro gs h
    refine ⟨by simp [fix_tool_call, getField, h], ?_, fun k v hv => findVal_append_left gs _ k v hv⟩
    rw [findVal_append_of_none gs _ _ h]
    simp [findVal]
  · intro gs tcs tcs' h ht
    refine ⟨?_, traverseOpt_length fix_tool_call tcs tcs' ht, fun k hk =>
      findVal_updFirst_ne gs "tool_calls" k _ hk⟩
    simp [fix_message, h, ht]
  · intro gs m m' h hm
    refine ⟨?_, fun k hk => findVal_updFirst_ne gs "message" k _ hk⟩
    simp [fix_choice, h, hm]
  · intro fs cs cs' h hc
    refine ⟨?_, traverseOpt_length fix_choice cs cs' hc, fun k hk =>
      findVal_updFirst_ne fs "choices" k _ hk⟩
    simp [mistral_after_receive, h, hc]
  · intro fs h
    cases hfv : findVal fs "choices" with
    | none => simp [mistral_after_receive, hfv]
    | some v =>
      cases v with
      | arr cs => exact absurd hfv (h cs)
      | null => simp [mistral_after_receive, hfv]
      | bool b => simp [mistral_after_receive, hfv]
      | num n => simp [mistral_after_receive, hfv]
      | str s => simp [mistral_after_receive, hfv]
      | obj gs => simp [mistral_after_receive, hfv]

/-- C4, witness: the spec's concrete scenario — a request with
`tool_choice = "required"` goes on the wire with `tool_choice = "any"`, and
a response whose sole tool call lacks "type" comes back with
`"type":"function"` injected, other fields untouched. -/
theorem c4_mistral_dialect_witness :
    mistral_before_send (Json.obj [("model", Json.str "m"), ("tool_choice", Json.str "required")])
      = Json.obj (updFirst [("model", Json.str "m"), ("tool_choice", Json.str "required")]
          "tool_choice" (Json.str "any")) ∧
    fix_tool_call (Json.obj [("id", Json.str "1")])
      = some (Json.obj ([("id", Json.str "1")] ++ [("type", Json.str "function")])) ∧
    mistral_after_receive
        (Json.obj [("choices", Json.arr [Json.obj [("message", Json.obj [("tool_calls",
          Json.arr [Json.obj [("id", Json.str "1")]])])]])])
      = some (Json.obj (updFirst
          [("choices", Json.arr [Json.obj [("message", Json.obj [("tool_calls",
            Json.arr [Json.obj [("id", Json.str "1")]])])]])]
          "choices" (Json.arr [Json.obj [("message", Json.obj [("tool_calls",
            Json.arr [Json.obj [("id", Json.str "1"), ("type", Json.str "function")]])])]]))) :=
  ⟨(c4_mistral_dialect.1 [("model", Json.str "m"), ("tool_choice", Json.str "required")] rfl).1,
    (c4_mistral_dialect.2.2.2.2.1 [("id", Json.str "1")] rfl).1,
    (c4_mistral_dialect.2.2.2.2.2.2.2.1
      [("choices", Json.arr [Json.obj [("message", Json.obj [("tool_calls",
        Json.arr [Json.obj [("id", Json.str "1")]])])]])]
      [Json.obj [("message", Json.obj [("tool_calls", Json.arr [Json.obj [("id", Json.str "1")]])])]]
      [Json.obj [("message", Json.obj [("tool_calls",
        Json.arr [Json.obj [("id", Json.str "1"), ("type", Json.str "function")]])])]]
      rfl rfl).1⟩

/-! ## Claim C10: repair gating on the model name -/

/-- C10: the role-alternation repair is gated on the model name, not the
provider — a request whose lower-cased model name does not contain
"mistral" passes through the repair unchanged and reaches any provider
as-is, while the shared chat client applies the repair (then think-tag
extraction) around every provider call, so a mistral-named model is
repaired whatever the provider; concretely, the repair does change a
MISTRAL-named request. -/
theorem c10_model_gated_repair :
    (∀ req : ChatCompletionParametersM, strContains (lowerAscii req.model) "mistral" = false →
      fix_mistral_alternating req = req) ∧
    (∀ (f : ChatCompletionParametersM → Except String ChatCompletionResponseM)
        (req : ChatCompletionParametersM),
      strContains (lowerAscii req.model) "mistral" = false →
      LlmClient.chat f req = (f req).map extract_think_content) ∧
    (∀ (f : ChatCompletionParametersM → Except String ChatCompletionResponseM)
        (req : ChatCompletionParametersM),
      LlmClient.chat f req = (f (fix_mistral_alternating req)).map extract_think_content) ∧
    strContains (lowerAscii p10mistral.model) "mistral" = true ∧
    fix_mistral_alternating p10mistral ≠ p10mistral := by
  refine ⟨fun req h => by simp [fix_mistral_alternating, h],
    fun f req h => by simp [LlmClient.chat, fix_mistral_alternating, h],
    fun f req => rfl, by decide, by decide⟩

/-- C10, witness: a gpt-named request on an arbitrary provider is not
repaired, and the client pipeline output equals the provider's response
post-extraction. -/
theorem c10_model_gated_repair_witness :
    fix_mistral_alternating ⟨"gpt-4", [ChatMessageM.assistant (some (MsgContent.text "ok")) none none]⟩
      = ⟨"gpt-4", [ChatMessageM.assistant (some (MsgContent.text "ok")) none none]⟩ ∧
    LlmClient.chat (fun _ => Except.error "boom") ⟨"gpt-4", []⟩ = Except.error "boom" :=
  ⟨c10_model_gated_repair.1 ⟨"gpt-4",
      [ChatMessageM.assistant (some (MsgContent.text "ok")) none none]⟩ (by decide),
    (c10_model_gated_repair.2.1 (fun _ => Except.error "boom") ⟨"gpt-4", []⟩ (by decide)).trans rfl⟩

end Shai
